import Mathlib

set_option maxHeartbeats 1000000

/-!
Verification development for the stvim command-language core of the
RouteAbout repository: the grammar-driven parser, the tree-to-command
transformer (`transformer.py`), the per-command handlers (`commands.py`)
and the executor facade (`executor.py`).

The Editor Session (a live pynvim/Neovim instance) is external to the
repository; it is modelled here from the specification's Editor Session
contract.  The `.lark` grammar source file is likewise not part of the
repository sources; the parser is modelled from the specification's
grammar description.  Everything else is a direct translation of the
Python sources.
-/

/-! ### Character-list helpers mirroring the Python string operations -/

/-- The newline character (written by code point). -/
def nlChar : Char := Char.ofNat 10

/-- The double-quote character. -/
def dqChar : Char := Char.ofNat 34

/-- The single-quote character. -/
def sqChar : Char := Char.ofNat 39

/-- Whether `pat` occurs at the start of `l` (lists of characters). -/
def isPrefLC : List Char → List Char → Bool
  | [], _ => true
  | _ :: _, [] => false
  | a :: as, b :: bs => a == b && isPrefLC as bs

/-- Whether `pat` occurs as a contiguous substring of `l`; this is the
python `pat in l` test on strings. -/
def occursIn (pat : List Char) : List Char → Bool
  | [] => isPrefLC pat []
  | c :: t => isPrefLC pat (c :: t) || occursIn pat t

/-- String-level substring test: python `pat in s`. -/
def containsStr (s pat : String) : Bool := occursIn pat.data s.data

/-- Helper for `pySplitCh`: returns the segment before the first separator
together with the remaining segments. -/
def pySplitChAux (ch : Char) : List Char → List Char × List (List Char)
  | [] => ([], [])
  | c :: rest =>
    let r := pySplitChAux ch rest
    if c == ch then ([], r.1 :: r.2) else (c :: r.1, r.2)

/-- python `s.split(ch)` for a one-character separator: always returns at
least one segment, and `"".split(ch) = [""]`. -/
def pySplitCh (ch : Char) (s : String) : List String :=
  let r := pySplitChAux ch s.data
  (r.1 :: r.2).map String.mk

/-- python `text.split("\n")` as used by `insert_text_command`. -/
def pySplitNl (s : String) : List String := pySplitCh nlChar s

/-- python `list.insert` index normalization: a negative index counts from
the end and both ends are clamped into the list. -/
def pyInsIdx (len : Nat) (i : Int) : Nat :=
  if i < 0 then ((len : Int) + i).toNat else min i.toNat len

/-- python `l.insert(i, x)`. -/
def pyInsert (l : List String) (i : Int) (x : String) : List String :=
  (l.take (pyInsIdx l.length i)) ++ x :: (l.drop (pyInsIdx l.length i))

/-- The loop `for i, line in enumerate(text_lines): cur.insert(idx + i, line)`
from `insert_text_command`. -/
def insertAll (l : List String) (idx : Int) : List String → List String
  | [] => l
  | x :: xs => insertAll (pyInsert l idx x) (idx + 1) xs

/-- Whether a character is one of the two quote characters. -/
def isQuoteCh (c : Char) : Bool := c == dqChar || c == sqChar

/-- python `l.strip(chars)` core: drop characters satisfying `p` from both
ends of a character list. -/
def stripBothLC (p : Char → Bool) (l : List Char) : List Char :=
  ((l.dropWhile p).reverse.dropWhile p).reverse

/-- python `text.strip("\"'")` as used by the transformer's `insert_text`. -/
def stripQuotesPy (s : String) : String := String.mk (stripBothLC isQuoteCh s.data)

/-- Whether a character is the double quote. -/
def isDqCh (c : Char) : Bool := c == dqChar

/-- python `text.strip('"')` as used by `find_text` and `replace_text`. -/
def stripDqPy (s : String) : String := String.mk (stripBothLC isDqCh s.data)

/-- python `s.startswith(pre)`. -/
def pyStartsWith (s pre : String) : Bool := isPrefLC pre.data s.data

/-- python `s.endswith(suf)`. -/
def pyEndsWith (s suf : String) : Bool := isPrefLC suf.data.reverse s.data.reverse

/-- python `s[3:-3]`, the triple-quote stripping slice. -/
def slice3m3 (s : String) : String :=
  String.mk ((s.data.drop 3).take (s.data.length - 6))

/-- python `s.lower()`. -/
def pyLower (s : String) : String := String.mk (s.data.map Char.toLower)

/-- python `str(...)` of a list of strings (only its empty-list value `"[]"`
is ever reached by the executor). -/
def pyStrList (l : List String) : String :=
  "[" ++ String.intercalate ", " (l.map (fun x => "'" ++ x ++ "'")) ++ "]"

/-! ### The Editor Session model

Modelled from the spec: the Editor Session (§6) keeps the ordered buffer
lines, the cursor as a 1-based line and a column, the current mode, the
visual-selection anchor and the active search pattern.  The repository
treats it as a black box behind the pynvim API. -/

structure Session where
  buffer : List String
  cursorLine : Int
  cursorCol : Int
  mode : String
  visualStart : Int
  lastSearch : String
deriving Repr, DecidableEq

/-- A session computation that may raise: state passing plus an error
outcome, keeping the state reached at the failure point (python exception
semantics: earlier side effects persist). -/
def EditorM (α : Type) : Type := Session → Except String α × Session

/-- Return for `EditorM`. -/
def pureE {α : Type} (a : α) : EditorM α := fun s => (.ok a, s)

/-- Sequencing for `EditorM`: a raised fault aborts the rest of the body. -/
def bindE {α β : Type} (m : EditorM α) (f : α → EditorM β) : EditorM β := fun s =>
  match m s with
  | (.ok a, s') => f a s'
  | (.error e, s') => (.error e, s')

/-- The pynvim surface the command handlers call.  Each operation may
fault; quantifying over this interface captures arbitrary Editor Session
behavior, including a session that raises on any call. -/
structure NvimApi where
  win_set_cursor : Int → Int → EditorM Unit
  win_get_cursor : EditorM (Int × Int)
  get_mode : EditorM String
  command : String → EditorM Unit
  buf_get : EditorM (List String)
  buf_set : List String → EditorM Unit
  buf_set_lines : Int → Int → List String → EditorM Unit
  call_search : String → String → EditorM Int

/-- The `try ... except Exception as e: return f"Error ...: {e}"` boundary
wrapped around every handler body in `commands.py`. -/
def guarded (body : EditorM String) (fmt : String → String) (s : Session) :
    String × Session :=
  match body s with
  | (.ok r, s') => (r, s')
  | (.error e, s') => (fmt e, s')

/-! ### Command handlers, translated from `commands.py` -/

/-- Body of `visual_lines_command` (commands.py lines 19-28). -/
def visual_lines_body (api : NvimApi) (start_line end_line : Int) : EditorM String :=
  bindE (api.win_set_cursor start_line 0) fun _ =>
  bindE (api.command "normal! V") fun _ =>
  bindE (api.win_set_cursor end_line 0) fun _ =>
  pureE ("Selected lines " ++ toString start_line ++ " to " ++ toString end_line)

/-- `visual_lines_command` from commands.py. -/
def visual_lines_command (api : NvimApi) (start_line end_line : Int)
    (s : Session) : String × Session :=
  guarded (visual_lines_body api start_line end_line)
    (fun e => "Error selecting lines " ++ toString start_line ++ "-" ++
      toString end_line ++ ": " ++ e) s

/-- Body of `insert_text_command` (commands.py lines 42-82): split the text
on newlines, then insert every line either at the explicit 1-based line or
after the cursor line. -/
def insert_text_body (api : NvimApi) (text : String) (line_num : Option Int) :
    EditorM String :=
  let text_lines := pySplitNl text
  match line_num with
  | some ln =>
    bindE api.buf_get fun current_lines =>
    bindE (api.buf_set (insertAll current_lines (ln - 1) text_lines)) fun _ =>
    pureE (if text_lines.length == 1 then
        "Inserted text at line " ++ toString ln
      else
        "Inserted " ++ toString text_lines.length ++ " lines starting at line " ++
          toString ln)
  | none =>
    bindE api.win_get_cursor fun cursor_pos =>
    bindE api.buf_get fun current_lines =>
    bindE (api.buf_set (insertAll current_lines ((cursor_pos.1 - 1) + 1) text_lines))
      fun _ =>
    pureE (if text_lines.length == 1 then
        "Inserted text at current position"
      else
        "Inserted " ++ toString text_lines.length ++ " lines at current position")

/-- `insert_text_command` from commands.py. -/
def insert_text_command (api : NvimApi) (text : String) (line_num : Option Int)
    (s : Session) : String × Session :=
  guarded (insert_text_body api text line_num)
    (fun e => "Error inserting text: " ++ e) s

/-- Body of `delete_command` (commands.py lines 95-106). -/
def delete_body (api : NvimApi) : EditorM String :=
  bindE api.get_mode fun mode =>
  if (pyLower mode).data.contains 'v' then
    bindE (api.command "normal! d") fun _ => pureE "Deleted visual selection"
  else
    bindE (api.command "normal! x") fun _ => pureE "Deleted character under cursor"

/-- `delete_command` from commands.py. -/
def delete_command (api : NvimApi) (s : Session) : String × Session :=
  guarded (delete_body api) (fun e => "Error deleting: " ++ e) s

/-- Body of `delete_lines_command` (commands.py lines 119-127): replace the
0-based half-open range `[start-1, end)` with the empty list. -/
def delete_lines_body (api : NvimApi) (start_line end_line : Int) : EditorM String :=
  bindE (api.buf_set_lines (start_line - 1) end_line []) fun _ =>
  pureE ("Deleted lines " ++ toString start_line ++ " to " ++ toString end_line)

/-- `delete_lines_command` from commands.py. -/
def delete_lines_command (api : NvimApi) (start_line end_line : Int)
    (s : Session) : String × Session :=
  guarded (delete_lines_body api start_line end_line)
    (fun e => "Error deleting lines " ++ toString start_line ++ "-" ++
      toString end_line ++ ": " ++ e) s

/-- Body of `goto_line_command` (commands.py lines 140-144). -/
def goto_line_body (api : NvimApi) (line_num : Int) : EditorM String :=
  bindE (api.win_set_cursor line_num 0) fun _ =>
  pureE ("Moved to line " ++ toString line_num)

/-- `goto_line_command` from commands.py. -/
def goto_line_command (api : NvimApi) (line_num : Int) (s : Session) :
    String × Session :=
  guarded (goto_line_body api line_num)
    (fun e => "Error going to line " ++ toString line_num ++ ": " ++ e) s

/-- Body of `find_text_command` (commands.py lines 157-167): a forward
no-wrap search; a positive result re-issues the search as a navigable `/`
command, otherwise a not-found message is returned. -/
def find_text_body (api : NvimApi) (pattern : String) : EditorM String :=
  bindE (api.call_search pattern "nW") fun search_result =>
  if search_result > 0 then
    bindE (api.command ("/" ++ pattern)) fun _ =>
    pureE ("Found '" ++ pattern ++ "' at line " ++ toString search_result)
  else
    pureE ("Pattern '" ++ pattern ++ "' not found")

/-- `find_text_command` from commands.py. -/
def find_text_command (api : NvimApi) (pattern : String) (s : Session) :
    String × Session :=
  guarded (find_text_body api pattern)
    (fun e => "Error searching for '" ++ pattern ++ "': " ++ e) s

/-- Body of `replace_text_command` (commands.py lines 180-188). -/
def replace_text_body (api : NvimApi) (old_pattern new_text : String) : EditorM String :=
  bindE (api.command ("%s/" ++ old_pattern ++ "/" ++ new_text ++ "/g")) fun _ =>
  pureE ("Replaced all '" ++ old_pattern ++ "' with '" ++ new_text ++ "'")

/-- `replace_text_command` from commands.py. -/
def replace_text_command (api : NvimApi) (old_pattern new_text : String)
    (s : Session) : String × Session :=
  guarded (replace_text_body api old_pattern new_text)
    (fun e => "Error replacing '" ++ old_pattern ++ "' with '" ++ new_text ++
      "': " ++ e) s

/-! ### The concrete Editor Session, modelled from the spec (§6)

The repository calls a live Neovim instance through pynvim; that service is
not part of the sources.  The operations below follow the spec's Editor
Session contract: whole-buffer read and atomic replace, 1-based cursor
get/set that faults outside the buffer, mode report, forward no-wrap
search returning a 1-based line or 0, replacement of a clamped 0-based
half-open line range, and a small command interpreter for the normal-mode
and ex commands the handlers issue. -/

/-- Modelled from the spec: normalization of a 0-based buffer-range index as
`nvim_buf_set_lines` does with `strict_indexing=False`: negative indices
count from one past the end, and everything is clamped into the buffer. -/
def normIdx (n : Nat) (i : Int) : Nat :=
  if i < 0 then min ((n : Int) + 1 + i).toNat n else min i.toNat n

/-- Modelled from the spec: forward no-wrap search scanning 1-based lines
from `from1` for a line containing `pat`; returns the 1-based line or 0. -/
def findLineFrom (pat : List Char) (from1 : Nat) : List (List Char) → Int
  | [] => 0
  | l :: rest =>
    if occursIn pat l then Int.ofNat from1 else findLineFrom pat (from1 + 1) rest

/-- Modelled from the spec: the session's forward no-wrap search from the
cursor line, as invoked through `search(pattern, "nW")`. -/
def searchFwd (s : Session) (pat : String) : Int :=
  findLineFrom pat.data s.cursorLine.toNat
    ((s.buffer.map String.data).drop (s.cursorLine.toNat - 1))

/-- Modelled from the spec: remove the character under the cursor from a
buffer (the effect of `normal! x` on a nonempty line). -/
def deleteCharAt (buf : List String) (line1 col : Int) : List String :=
  let idx := (line1 - 1).toNat
  buf.enum.map (fun p =>
    if p.1 = idx then
      String.mk ((p.2.data.take col.toNat) ++ (p.2.data.drop (col.toNat + 1)))
    else p.2)

/-- Modelled from the spec: replace every occurrence of `old` in one line by
`new`; the fuel argument (the line length) bounds the scan. -/
def replaceFuel (old new : List Char) : Nat → List Char → List Char
  | 0, l => l
  | _ + 1, [] => []
  | f + 1, c :: cs =>
    if old ≠ [] ∧ isPrefLC old (c :: cs) then
      new ++ replaceFuel old new f ((c :: cs).drop old.length)
    else c :: replaceFuel old new f cs

/-- Modelled from the spec: the session's global substitution
`%s/old/new/g` over the whole buffer; faults when the pattern matches
nowhere (E486), as Vim's substitute command does. -/
def substituteAll (old new : String) (s : Session) : Except String Unit × Session :=
  if s.buffer.any (fun l => occursIn old.data l.data) ∧ old ≠ "" then
    let buf := s.buffer.map (fun l =>
      String.mk (replaceFuel old.data new.data l.data.length l.data))
    (.ok (), { s with buffer := buf })
  else (.error ("Pattern not found: " ++ old), s)

/-- Modelled from the spec: the few `nvim.command` strings the handlers
issue — entering visual line mode, normal-mode deletes, a `/` search jump
and a global substitute. -/
def runCommandStr (c : String) (s : Session) : Except String Unit × Session :=
  if c = "normal! V" then
    (.ok (), { s with mode := "V", visualStart := s.cursorLine })
  else if c = "normal! x" then
    (.ok (), { s with buffer := deleteCharAt s.buffer s.cursorLine s.cursorCol })
  else if c = "normal! d" then
    if (pyLower s.mode).data.contains 'v' then
      let lo := min s.visualStart s.cursorLine
      let hi := max s.visualStart s.cursorLine
      let buf := s.buffer.take (lo - 1).toNat ++ s.buffer.drop hi.toNat
      (.ok (), { s with buffer := buf, mode := "n", cursorLine := lo })
    else
      (.ok (), { s with buffer := deleteCharAt s.buffer s.cursorLine s.cursorCol })
  else if pyStartsWith c "/" then
    let pat := String.mk (c.data.drop 1)
    let r := findLineFrom pat.data s.cursorLine.toNat
      ((s.buffer.map String.data).drop (s.cursorLine.toNat - 1))
    if r > 0 then (.ok (), { s with cursorLine := r, lastSearch := pat })
    else (.error ("Pattern not found: " ++ pat), s)
  else if pyStartsWith c "%s/" then
    match pySplitCh '/' (String.mk (c.data.drop 3)) with
    | [old, new, "g"] => substituteAll old new s
    | _ => (.error ("Invalid substitute command: " ++ c), s)
  else (.error ("Not an editor command: " ++ c), s)

/-- Modelled from the spec: the concrete pynvim API over the Editor Session
state.  Setting the cursor outside the buffer faults; replacing a line
range whose normalized start exceeds its normalized end faults. -/
def nvimApi : NvimApi where
  win_set_cursor := fun l c s =>
    if 1 ≤ l ∧ l ≤ (s.buffer.length : Int) then
      (.ok (), { s with cursorLine := l, cursorCol := c })
    else (.error "Cursor position outside buffer", s)
  win_get_cursor := fun s => (.ok (s.cursorLine, s.cursorCol), s)
  get_mode := fun s => (.ok s.mode, s)
  command := runCommandStr
  buf_get := fun s => (.ok s.buffer, s)
  buf_set := fun lines s => (.ok (), { s with buffer := lines })
  buf_set_lines := fun lo hi repl s =>
    let n := s.buffer.length
    if normIdx n lo > normIdx n hi then
      (.error "start is higher than end", s)
    else
      let buf := s.buffer.take (normIdx n lo) ++ repl ++ s.buffer.drop (normIdx n hi)
      (.ok (), { s with buffer := buf })
  call_search := fun pat _flags s => (.ok (searchFwd s pat), s)

/-! ### Grammar and parser, modelled from the spec (§4.1)

The `.lark` grammar source is not among the repository sources; the token
set and productions below follow the spec's grammar description: the
keyword vocabulary, base-10 integers, single-line quoted strings (either
quote, not spanning a newline) and triple-quoted multi-line strings lexed
as one token across embedded newlines.  The root parses a sequence of
commands; whitespace between tokens is ignored. -/

/-- A lexical token: a keyword, an integer literal, or a string literal kept
verbatim with its delimiters (the transformer strips them, as in
`transformer.py`). -/
inductive Tok where
  | kw (w : String)
  | num (n : Int)
  | strTok (raw : String)
deriving Repr, DecidableEq

/-- The keyword vocabulary of the grammar. -/
def keywords : List String :=
  ["VISUAL", "LINES", "TO", "INSERT", "AT", "LINE", "DELETE", "GOTO", "FIND",
   "REPLACE", "WITH"]

/-- Scan a triple-quoted literal: everything up to the closing `"""`,
newlines included. -/
def scanTriple : List Char → Option (List Char × List Char)
  | a :: b :: c :: rest =>
    if a == dqChar ∧ b == dqChar ∧ c == dqChar then some ([], rest)
    else match scanTriple (b :: c :: rest) with
      | some (content, rem) => some (a :: content, rem)
      | none => none
  | _ => none

/-- Scan a single-line string literal up to the closing quote `q`; a newline
or the end of input before the closing quote is a lexical fault. -/
def scanStr (q : Char) : List Char → Option (List Char × List Char)
  | [] => none
  | c :: rest =>
    if c == q then some ([], rest)
    else if c == nlChar then none
    else match scanStr q rest with
      | some (content, rem) => some (c :: content, rem)
      | none => none

/-- Digits to a natural number, base 10. -/
def digitsToNat : List Char → Nat → Nat
  | [], acc => acc
  | c :: cs, acc => digitsToNat cs (acc * 10 + (c.toNat - 48))

/-- The tokenizer; the fuel argument (the input length) bounds the scan and
is never exhausted. -/
def lexAux : Nat → List Char → Except String (List Tok)
  | _, [] => .ok []
  | 0, _ => .error "lexer stalled"
  | fuel + 1, c :: cs =>
    if c.isWhitespace then lexAux fuel cs
    else if c == dqChar then
      match cs with
      | d :: e :: rest =>
        if d == dqChar ∧ e == dqChar then
          match scanTriple rest with
          | some (content, rem) =>
            (lexAux fuel rem).map (fun ts =>
              Tok.strTok (String.mk ([dqChar, dqChar, dqChar] ++ content ++
                [dqChar, dqChar, dqChar])) :: ts)
          | none => .error "unterminated multi-line string"
        else
          match scanStr dqChar cs with
          | some (content, rem) =>
            (lexAux fuel rem).map (fun ts =>
              Tok.strTok (String.mk (dqChar :: content ++ [dqChar])) :: ts)
          | none => .error "unterminated string"
      | _ =>
        match scanStr dqChar cs with
        | some (content, rem) =>
          (lexAux fuel rem).map (fun ts =>
            Tok.strTok (String.mk (dqChar :: content ++ [dqChar])) :: ts)
        | none => .error "unterminated string"
    else if c == sqChar then
      match scanStr sqChar cs with
      | some (content, rem) =>
        (lexAux fuel rem).map (fun ts =>
          Tok.strTok (String.mk (sqChar :: content ++ [sqChar])) :: ts)
      | none => .error "unterminated string"
    else if c.isDigit then
      let digits := (c :: cs).takeWhile Char.isDigit
      let rest := (c :: cs).dropWhile Char.isDigit
      (lexAux fuel rest).map (fun ts =>
        Tok.num (Int.ofNat (digitsToNat digits 0)) :: ts)
    else if c.isAlpha then
      let word := String.mk ((c :: cs).takeWhile Char.isAlpha)
      let rest := (c :: cs).dropWhile Char.isAlpha
      if keywords.contains word then
        (lexAux fuel rest).map (fun ts => Tok.kw word :: ts)
      else .error ("No terminal matches '" ++ word ++ "'")
    else .error ("No terminal matches '" ++ String.mk [c] ++ "'")

/-- Tokenize a whole input. -/
def lex (input : String) : Except String (List Tok) :=
  lexAux input.data.length input.data

/-- A command node of the parse tree, carrying the raw literal tokens the
transformer later converts (spec §3: the Command variants). -/
inductive Cmd where
  | visualLines (startLine endLine : Int)
  | insertText (rawText : String) (atLine : Option Int)
  | delete
  | deleteLines (startLine endLine : Int)
  | gotoLine (n : Int)
  | findText (rawPattern : String)
  | replaceText (rawOld rawNew : String)
deriving Repr, DecidableEq

/-- The grammar productions from the spec, as a deterministic descent over
the token list; the root accepts a sequence of commands. -/
def parseCmds : List Tok → Except String (List Cmd)
  | [] => .ok []
  | Tok.kw "VISUAL" :: Tok.kw "LINES" :: Tok.num a :: Tok.kw "TO" :: Tok.num b :: rest =>
    (parseCmds rest).map (fun cs => Cmd.visualLines a b :: cs)
  | Tok.kw "INSERT" :: Tok.strTok t :: Tok.kw "AT" :: Tok.kw "LINE" :: Tok.num n :: rest =>
    (parseCmds rest).map (fun cs => Cmd.insertText t (some n) :: cs)
  | Tok.kw "INSERT" :: Tok.strTok t :: rest =>
    (parseCmds rest).map (fun cs => Cmd.insertText t none :: cs)
  | Tok.kw "DELETE" :: Tok.kw "LINES" :: Tok.num a :: Tok.kw "TO" :: Tok.num b :: rest =>
    (parseCmds rest).map (fun cs => Cmd.deleteLines a b :: cs)
  | Tok.kw "DELETE" :: rest =>
    (parseCmds rest).map (fun cs => Cmd.delete :: cs)
  | Tok.kw "GOTO" :: Tok.kw "LINE" :: Tok.num n :: rest =>
    (parseCmds rest).map (fun cs => Cmd.gotoLine n :: cs)
  | Tok.kw "FIND" :: Tok.strTok t :: rest =>
    (parseCmds rest).map (fun cs => Cmd.findText t :: cs)
  | Tok.kw "REPLACE" :: Tok.strTok o :: Tok.kw "WITH" :: Tok.strTok n :: rest =>
    (parseCmds rest).map (fun cs => Cmd.replaceText o n :: cs)
  | _ => .error "Unexpected token"

/-- Modelled from the spec: `Lark.parse` — tokenize then parse; any fault is
a ParseError carried as a message. -/
def parse (input : String) : Except String (List Cmd) :=
  match lex input with
  | .ok toks => parseCmds toks
  | .error e => .error e

/-- Modelled from the spec: lark's string rendering of a parse tree, a
`Tree('start', [...])` node with one child per command (the child rendering
is schematic; only the root shape matters to the executor fallback
comparison). -/
def treeToString (cmds : List Cmd) : String :=
  "Tree('start', [" ++
    String.intercalate ", " (cmds.map (fun _ => "Tree('command', [...])")) ++ "])"

/-! ### Transformer, translated from `transformer.py` -/

/-- The quote handling of `NvimDSLTransformer.insert_text` (transformer.py
lines 65-70): a token that starts and ends with `\"\"\"` loses the triple
quotes via `text[3:-3]`; any other token goes through
`text.strip("\"'")`. -/
def transformInsertToken (raw : String) : String :=
  if pyStartsWith raw (String.mk [dqChar, dqChar, dqChar]) ∧
     pyEndsWith raw (String.mk [dqChar, dqChar, dqChar]) then
    slice3m3 raw
  else
    stripQuotesPy raw

/-- Dispatch of one `command` parse-tree node through the transformer's
callback methods to the matching handler, with the argument conversions of
`transformer.py` (`int(...)` on numbers, quote stripping on strings). -/
def runCmd (api : NvimApi) : Cmd → Session → String × Session
  | Cmd.visualLines a b => visual_lines_command api a b
  | Cmd.insertText raw atLine => insert_text_command api (transformInsertToken raw) atLine
  | Cmd.delete => delete_command api
  | Cmd.deleteLines a b => delete_lines_command api a b
  | Cmd.gotoLine n => goto_line_command api n
  | Cmd.findText raw => find_text_command api (stripDqPy raw)
  | Cmd.replaceText o n => replace_text_command api (stripDqPy o) (stripDqPy n)

/-- `NvimDSLTransformer.start`: every command node is executed in source
order and its Result collected; lark transforms bottom-up, so each handler
runs against the session state the earlier commands left. -/
def transformCmds (api : NvimApi) : List Cmd → Session → List String × Session
  | [], s => ([], s)
  | c :: cs, s =>
    let r := runCmd api c s
    let rs := transformCmds api cs r.2
    (r.1 :: rs.1, rs.2)

/-! ### Executor, translated from `executor.py` -/

/-- `NvimDSLExecutor.execute` (executor.py lines 87-101): parse, transform,
return the first Result of the list, or the python stringification of the
transform output when the list is empty; any fault raised while parsing is
converted into an error-marked Result embedding the offending input. -/
def execute (api : NvimApi) (dsl_command : String) (s : Session) : String × Session :=
  match parse dsl_command with
  | .ok cmds =>
    let r := transformCmds api cmds s
    match r.1 with
    | x :: _ => (x, r.2)
    | [] => (pyStrList r.1, r.2)
  | .error e => ("Error executing '" ++ dsl_command ++ "': " ++ e, s)

/-- `NvimDSLExecutor.execute_batch` (executor.py lines 103-116): execute
each input in order, collecting one Result per input. -/
def execute_batch (api : NvimApi) : List String → Session → List String × Session
  | [], s => ([], s)
  | c :: cs, s =>
    let r := execute api c s
    let rs := execute_batch api cs r.2
    (r.1 :: rs.1, rs.2)

/-- `NvimDSLExecutor.validate_command` (executor.py lines 118-132): parse
only; any fault yields `false`. -/
def validate_command (dsl_command : String) : Bool :=
  match parse dsl_command with
  | .ok _ => true
  | .error _ => false

/-- `NvimDSLExecutor.get_parse_tree` (executor.py lines 134-144): parse
without executing; a parse fault propagates to the caller. -/
def get_parse_tree (dsl_command : String) : Except String (List Cmd) :=
  parse dsl_command

/-! ### Supporting lemmas about the substring predicate -/

lemma isPrefLC_refl (l : List Char) : isPrefLC l l = true := by
  induction l with
  | nil => rfl
  | cons a as ih => simp [isPrefLC, ih]

lemma isPrefLC_append_left {pat l : List Char} (t : List Char)
    (h : isPrefLC pat l = true) : isPrefLC pat (l ++ t) = true := by
  induction pat generalizing l with
  | nil => rfl
  | cons a as ih =>
    cases l with
    | nil => simp [isPrefLC] at h
    | cons b bs =>
      simp only [isPrefLC, Bool.and_eq_true, beq_iff_eq] at h ⊢
      exact ⟨h.1, ih h.2⟩

lemma isPrefLC_self_append (pat t : List Char) : isPrefLC pat (pat ++ t) = true :=
  isPrefLC_append_left t (isPrefLC_refl pat)

lemma occursIn_of_pref {pat l : List Char} (h : isPrefLC pat l = true) :
    occursIn pat l = true := by
  cases l with
  | nil => exact h
  | cons c t => simp [occursIn, h]

lemma occursIn_append_left {pat l : List Char} (t : List Char)
    (h : occursIn pat l = true) : occursIn pat (l ++ t) = true := by
  induction l with
  | nil =>
    cases pat with
    | nil => exact occursIn_of_pref (isPrefLC_refl [] |>.symm ▸ rfl)
    | cons a as => simp [occursIn, isPrefLC] at h
  | cons c cs ih =>
    simp only [occursIn, Bool.or_eq_true] at h
    rcases h with h | h
    · exact occursIn_of_pref (by simpa using isPrefLC_append_left t h)
    · simp only [List.cons_append, occursIn, Bool.or_eq_true]
      exact Or.inr (ih h)

lemma occursIn_append_right {pat : List Char} (l : List Char) {t : List Char}
    (h : occursIn pat t = true) : occursIn pat (l ++ t) = true := by
  induction l with
  | nil => simpa using h
  | cons c cs ih =>
    simp only [List.cons_append, occursIn, Bool.or_eq_true]
    exact Or.inr ih

lemma occursInStr_append_left {p : List Char} (a b : String)
    (h : occursIn p a.data = true) : occursIn p (a ++ b).data = true := by
  rw [String.data_append]
  exact occursIn_append_left _ h

/-- An occurrence whose pattern starts with a character absent from the
left part must lie entirely in the right part. -/
lemma occursIn_head_notin {c : Char} {p l₁ l₂ : List Char}
    (hc : l₁.contains c = false)
    (h : occursIn (c :: p) (l₁ ++ l₂) = true) : occursIn (c :: p) l₂ = true := by
  induction l₁ with
  | nil => simpa using h
  | cons a t ih =>
    simp only [List.contains_cons, Bool.or_eq_false_iff, beq_eq_false_iff_ne] at hc
    simp only [List.cons_append, occursIn, Bool.or_eq_true] at h
    rcases h with h | h
    · simp only [isPrefLC, Bool.and_eq_true, beq_iff_eq] at h
      exact absurd h.1 hc.1
    · exact ih (by simpa using hc.2) h

/-- A prefix of an appended list either fits in the left part or spans into
the right part with a positive number of pattern characters consumed. -/
lemma prefLC_append_cases {pat l₂ : List Char} (s : List Char)
    (h : isPrefLC pat (s ++ l₂) = true) :
    isPrefLC pat s = true ∨
      (s.length < pat.length ∧ isPrefLC (pat.drop s.length) l₂ = true) := by
  induction s generalizing pat with
  | nil =>
    cases pat with
    | nil => exact Or.inl rfl
    | cons a as => exact Or.inr (by simpa using h)
  | cons b bs ih =>
    cases pat with
    | nil => exact Or.inl rfl
    | cons a as =>
      simp only [List.cons_append, isPrefLC, Bool.and_eq_true, beq_iff_eq] at h ⊢
      rcases ih h.2 with h' | h'
      · exact Or.inl ⟨h.1, h'⟩
      · exact Or.inr ⟨by simpa using h'.1, by simpa using h'.2⟩

/-- Decomposition of an occurrence in an appended list: it lies in the left
part, lies in the right part, or spans the boundary with a positive proper
piece of the pattern consumed on the left. -/
lemma occursIn_append_cases {pat : List Char} (l₁ l₂ : List Char)
    (h : occursIn pat (l₁ ++ l₂) = true) :
    occursIn pat l₁ = true ∨ occursIn pat l₂ = true ∨
      ∃ m, 0 < m ∧ m < pat.length ∧ isPrefLC (pat.drop m) l₂ = true := by
  induction l₁ with
  | nil => exact Or.inr (Or.inl (by simpa using h))
  | cons c t ih =>
    simp only [List.cons_append, occursIn, Bool.or_eq_true] at h
    rcases h with h | h
    · rcases prefLC_append_cases (c :: t) (by simpa using h) with h' | h'
      · exact Or.inl (occursIn_of_pref h')
      · exact Or.inr (Or.inr ⟨(c :: t).length, by simp, h'.1, h'.2⟩)
    · rcases ih h with h' | h' | h'
      · exact Or.inl (by simp [occursIn, h'])
      · exact Or.inr (Or.inl h')
      · exact Or.inr (Or.inr h')

/-! ### Supporting lemmas about python list insertion and splitting -/

lemma pyInsert_splice {i : Int} (l : List String) (x : String)
    (h0 : 0 ≤ i) (h1 : i.toNat ≤ l.length) :
    pyInsert l i x = l.take i.toNat ++ x :: l.drop i.toNat := by
  have hidx : pyInsIdx l.length i = i.toNat := by
    unfold pyInsIdx
    rw [if_neg (by omega)]
    omega
  unfold pyInsert
  rw [hidx]

lemma insertAll_splice (xs : List String) :
    ∀ (l : List String) (i : Int), 0 ≤ i → i.toNat ≤ l.length →
      insertAll l i xs = l.take i.toNat ++ (xs ++ l.drop i.toNat) := by
  induction xs with
  | nil => intro l i h0 h1; simp [insertAll]
  | cons x xs ih =>
    intro l i h0 h1
    rw [insertAll, pyInsert_splice l x h0 h1]
    have hlen : (l.take i.toNat ++ x :: l.drop i.toNat).length = l.length + 1 := by
      simp only [List.length_append, List.length_cons, List.length_take,
        List.length_drop]
      omega
    have key := ih (l.take i.toNat ++ x :: l.drop i.toNat) (i + 1) (by omega)
      (by rw [hlen]; omega)
    rw [key]
    have hi1 : (i + 1).toNat = i.toNat + 1 := by omega
    have hts : (l.take i.toNat).length = i.toNat := by
      simp only [List.length_take]
      omega
    have hone : i.toNat + 1 - i.toNat = 1 := by omega
    have htake : (l.take i.toNat ++ x :: l.drop i.toNat).take (i.toNat + 1)
        = l.take i.toNat ++ [x] := by
      rw [List.take_append_eq_append_take, hts, hone,
          List.take_of_length_le (by rw [hts]; omega)]
      rfl
    have hdrop : (l.take i.toNat ++ x :: l.drop i.toNat).drop (i.toNat + 1)
        = l.drop i.toNat := by
      rw [List.drop_append_eq_append_drop, hts, hone,
          List.drop_eq_nil_of_le (by rw [hts]; omega)]
      rfl
    rw [hi1, htake, hdrop]
    simp

lemma insertAll_length (xs : List String) :
    ∀ (l : List String) (i : Int),
      (insertAll l i xs).length = l.length + xs.length := by
  induction xs with
  | nil => intro l i; simp [insertAll]
  | cons x xs ih =>
    intro l i
    rw [insertAll, ih]
    simp [pyInsert, List.length_take]
    omega

lemma pySplitChAux_no_sep {ch : Char} :
    ∀ {l : List Char}, l.contains ch = false → pySplitChAux ch l = (l, []) := by
  intro l
  induction l with
  | nil => intro _; rfl
  | cons c cs ih =>
    intro h
    rw [List.contains_cons, Bool.or_eq_false_iff] at h
    have h1 : ¬ (c = ch) := fun hc => by simp [hc] at h
    simp [pySplitChAux, ih h.2, h1]

lemma strMk_data (s : String) : String.mk s.data = s := rfl

lemma pySplitNl_single {s : String} (h : s.data.contains nlChar = false) :
    pySplitNl s = [s] := by
  unfold pySplitNl pySplitCh
  rw [pySplitChAux_no_sep h]
  simp [strMk_data]

lemma pySplitCh_ne_nil (ch : Char) (s : String) : pySplitCh ch s ≠ [] := by
  unfold pySplitCh
  simp

/-! ### Supporting lemmas about the transformer and executor -/

lemma transformCmds_length (api : NvimApi) :
    ∀ (cs : List Cmd) (s : Session),
      (transformCmds api cs s).1.length = cs.length := by
  intro cs
  induction cs with
  | nil => intro s; rfl
  | cons c cs ih => intro s; simp [transformCmds, ih]

lemma execute_batch_length (api : NvimApi) :
    ∀ (cs : List String) (s : Session),
      (execute_batch api cs s).1.length = cs.length := by
  intro cs
  induction cs with
  | nil => intro s; rfl
  | cons c cs ih => intro s; simp [execute_batch, ih]

/-! ### Characterizations of the handlers over the concrete session -/

lemma take_min_length (l : List String) (k : Nat) :
    l.take (min k l.length) = l.take k := by
  rcases le_total k l.length with h | h
  · rw [min_eq_left h]
  · rw [min_eq_right h, List.take_length, List.take_of_length_le h]

lemma drop_min_length (l : List String) (k : Nat) :
    l.drop (min k l.length) = l.drop k := by
  rcases le_total k l.length with h | h
  · rw [min_eq_left h]
  · rw [min_eq_right h, List.drop_length, List.drop_eq_nil_of_le h]

/-- What `DELETE LINES start TO end` does against the concrete session when
the pair describes a forward range: the clamped half-open 0-based range
`[start-1, end)` is replaced by the empty sequence. -/
lemma delete_lines_spec (a b : Int) (s : Session) (h1 : 1 ≤ a) (h2 : a - 1 ≤ b) :
    delete_lines_command nvimApi a b s =
      ("Deleted lines " ++ toString a ++ " to " ++ toString b,
       { s with buffer := s.buffer.take (a - 1).toNat ++ s.buffer.drop b.toNat }) := by
  have hga : normIdx s.buffer.length (a - 1) = min (a - 1).toNat s.buffer.length := by
    unfold normIdx
    rw [if_neg (by omega)]
  have hgb : normIdx s.buffer.length b = min b.toNat s.buffer.length := by
    unfold normIdx
    rw [if_neg (by omega)]
  unfold delete_lines_command guarded delete_lines_body
  simp only [bindE, pureE, nvimApi, hga, hgb]
  rw [if_neg (by omega)]
  rw [take_min_length, drop_min_length]
  simp

/-- What `INSERT text AT LINE ln` does against the concrete session when the
1-based line lies inside the buffer or one past its end: the lines obtained
by splitting on newlines are spliced in at 0-based position `ln - 1` and
nothing is overwritten. -/
lemma insert_at_line_spec (text : String) (ln : Int) (s : Session)
    (h1 : 1 ≤ ln) (h2 : (ln - 1).toNat ≤ s.buffer.length) :
    insert_text_command nvimApi text (some ln) s =
      ((if (pySplitNl text).length == 1 then
          "Inserted text at line " ++ toString ln
        else
          "Inserted " ++ toString (pySplitNl text).length ++
            " lines starting at line " ++ toString ln),
       { s with buffer := s.buffer.take (ln - 1).toNat ++
          (pySplitNl text ++ s.buffer.drop (ln - 1).toNat) }) := by
  unfold insert_text_command guarded insert_text_body
  simp only [bindE, pureE, nvimApi]
  rw [insertAll_splice _ _ _ (by omega) h2]

/-- What `FIND pattern` does against the concrete session when the forward
no-wrap search reports no match. -/
lemma find_notfound_spec (pat : String) (s : Session) (h : searchFwd s pat ≤ 0) :
    find_text_command nvimApi pat s = ("Pattern '" ++ pat ++ "' not found", s) := by
  unfold find_text_command guarded find_text_body
  simp only [bindE, pureE, nvimApi]
  rw [if_neg (by omega)]
  rfl

/-- A fresh session on a given buffer: cursor at line 1 column 0, normal
mode, no visual anchor or search pattern of interest. -/
def mkSession (buf : List String) : Session :=
  { buffer := buf, cursorLine := 1, cursorCol := 0, mode := "n",
    visualStart := 1, lastSearch := "" }

/-! ### Claims -/

/-- Claim C1: for every 1-based pair (start, end) describing a range,
`DELETE LINES start TO end` replaces the 0-based half-open line range
`[start-1, end)` of the session buffer with the empty sequence and returns
a success Result naming the range; in particular on the buffer
`["a","b","c","d"]` the command `DELETE LINES 2 TO 3` leaves `["a","d"]`. -/
theorem delete_lines_replaces_halfopen_range (start_line end_line : Int)
    (s : Session) (h1 : 1 ≤ start_line) (h2 : start_line ≤ end_line) :
    delete_lines_command nvimApi start_line end_line s =
      ("Deleted lines " ++ toString start_line ++ " to " ++ toString end_line,
       { s with buffer := s.buffer.take (start_line - 1).toNat ++
          s.buffer.drop end_line.toNat }) ∧
    execute nvimApi "DELETE LINES 2 TO 3" (mkSession ["a", "b", "c", "d"]) =
      ("Deleted lines 2 to 3", mkSession ["a", "d"]) := by
  refine ⟨delete_lines_spec start_line end_line s h1 (by omega), ?_⟩
  rfl

/-- Witness for C1 at start = 2, end = 3 on the buffer ["a","b","c","d"]. -/
theorem delete_lines_replaces_halfopen_range_witness :
    delete_lines_command nvimApi 2 3 (mkSession ["a", "b", "c", "d"]) =
      ("Deleted lines 2 to 3", mkSession ["a", "d"]) ∧
    execute nvimApi "DELETE LINES 2 TO 3" (mkSession ["a", "b", "c", "d"]) =
      ("Deleted lines 2 to 3", mkSession ["a", "d"]) :=
  delete_lines_replaces_halfopen_range 2 3 (mkSession ["a", "b", "c", "d"])
    (by decide) (by decide)

/-- Claim C3: `INSERT text AT LINE L` (for a line position inside the buffer
or one past its end) splits the text on embedded newlines into N ≥ 1 lines
and splices them in at 0-based index L-1, pushing existing content down and
overwriting nothing; on `["a","b","c"]`, `INSERT "x" AT LINE 2` yields
`["a","x","b","c"]` and a Result mentioning line 2. -/
theorem insert_at_line_splices_lines (text : String) (L : Int) (s : Session)
    (h1 : 1 ≤ L) (h2 : (L - 1).toNat ≤ s.buffer.length) :
    1 ≤ (pySplitNl text).length ∧
    insert_text_command nvimApi text (some L) s =
      ((if (pySplitNl text).length == 1 then
          "Inserted text at line " ++ toString L
        else
          "Inserted " ++ toString (pySplitNl text).length ++
            " lines starting at line " ++ toString L),
       { s with buffer := s.buffer.take (L - 1).toNat ++
          (pySplitNl text ++ s.buffer.drop (L - 1).toNat) }) ∧
    execute nvimApi "INSERT \"x\" AT LINE 2" (mkSession ["a", "b", "c"]) =
      ("Inserted text at line 2", mkSession ["a", "x", "b", "c"]) ∧
    containsStr "Inserted text at line 2" "2" = true := by
  refine ⟨?_, insert_at_line_spec text L s h1 h2, by rfl, by decide⟩
  exact List.length_pos.mpr (pySplitCh_ne_nil nlChar text)

/-- Witness for C3 at text = "x", L = 2 on the buffer ["a","b","c"]. -/
theorem insert_at_line_splices_lines_witness :
    1 ≤ (pySplitNl "x").length ∧
    insert_text_command nvimApi "x" (some 2) (mkSession ["a", "b", "c"]) =
      ("Inserted text at line 2", mkSession ["a", "x", "b", "c"]) ∧
    execute nvimApi "INSERT \"x\" AT LINE 2" (mkSession ["a", "b", "c"]) =
      ("Inserted text at line 2", mkSession ["a", "x", "b", "c"]) ∧
    containsStr "Inserted text at line 2" "2" = true :=
  insert_at_line_splices_lines "x" 2 (mkSession ["a", "b", "c"])
    (by decide) (by decide)

/-- Claim C9: inserting text T at 1-based line L and then deleting the line
range [L, L] restores the original buffer exactly when T is a single line
(contains no newline); when T splits into more than one line, deleting only
[L, L] cannot restore the buffer. -/
theorem insert_then_delete_roundtrip (T : String) (L : Int) (s : Session)
    (h1 : 1 ≤ L) (h2 : (L - 1).toNat ≤ s.buffer.length) :
    (T.data.contains nlChar = false →
      (delete_lines_command nvimApi L L
        (insert_text_command nvimApi T (some L) s).2).2.buffer = s.buffer) ∧
    (1 < (pySplitNl T).length →
      (delete_lines_command nvimApi L L
        (insert_text_command nvimApi T (some L) s).2).2.buffer ≠ s.buffer) := by
  have hins := insert_at_line_spec T L s h1 h2
  have hdel := fun (s' : Session) => delete_lines_spec L L s' h1 (by omega)
  have hts : (s.buffer.take (L - 1).toNat).length = (L - 1).toNat := by
    simp only [List.length_take]
    omega
  have hLt : L.toNat = (L - 1).toNat + 1 := by omega
  constructor
  · intro hnl
    rw [hins, hdel]
    have hsplit : pySplitNl T = [T] := pySplitNl_single hnl
    rw [hsplit]
    simp only [List.singleton_append]
    have htake : (s.buffer.take (L - 1).toNat ++
        T :: s.buffer.drop (L - 1).toNat).take (L - 1).toNat
        = s.buffer.take (L - 1).toNat := by
      rw [List.take_append_eq_append_take, hts]
      have h0 : (L - 1).toNat - (L - 1).toNat = 0 := by omega
      rw [h0, List.take_of_length_le (le_of_eq hts)]
      simp
    have hdropped : (s.buffer.take (L - 1).toNat ++
        T :: s.buffer.drop (L - 1).toNat).drop L.toNat
        = s.buffer.drop (L - 1).toNat := by
      rw [hLt, List.drop_append_eq_append_drop, hts]
      have h1 : (L - 1).toNat + 1 - (L - 1).toNat = 1 := by omega
      rw [h1, List.drop_eq_nil_of_le (le_of_eq hts |>.trans (by omega))]
      simp
    rw [htake, hdropped, List.take_append_drop]
  · intro hmulti
    rw [hins, hdel]
    intro heq
    have hlen := congrArg List.length heq
    simp only [List.length_append, List.length_take, List.length_drop] at hlen
    omega

/-- Witness for C9: both directions at concrete inputs — T = "x" restores
the buffer, T = "x" followed by a newline and "y" does not. -/
theorem insert_then_delete_roundtrip_witness :
    ((("x" : String).data.contains nlChar = false →
      (delete_lines_command nvimApi 2 2
        (insert_text_command nvimApi "x" (some 2) (mkSession ["a", "b", "c"])).2).2.buffer =
        (mkSession ["a", "b", "c"]).buffer) ∧
     (1 < (pySplitNl "x").length →
      (delete_lines_command nvimApi 2 2
        (insert_text_command nvimApi "x" (some 2) (mkSession ["a", "b", "c"])).2).2.buffer ≠
        (mkSession ["a", "b", "c"]).buffer)) ∧
    ((("x\ny" : String).data.contains nlChar = false →
      (delete_lines_command nvimApi 2 2
        (insert_text_command nvimApi "x\ny" (some 2) (mkSession ["a", "b", "c"])).2).2.buffer =
        (mkSession ["a", "b", "c"]).buffer) ∧
     (1 < (pySplitNl "x\ny").length →
      (delete_lines_command nvimApi 2 2
        (insert_text_command nvimApi "x\ny" (some 2) (mkSession ["a", "b", "c"])).2).2.buffer ≠
        (mkSession ["a", "b", "c"]).buffer)) :=
  ⟨insert_then_delete_roundtrip "x" 2 (mkSession ["a", "b", "c"]) (by decide) (by decide),
   insert_then_delete_roundtrip "x\ny" 2 (mkSession ["a", "b", "c"]) (by decide) (by decide)⟩

/-- The per-handler failure-boundary contract: the handler returns the
body's Result on success, and on a raised fault it still returns exactly
one Result — at the faulting state — whose text carries the error
marker. -/
def catchesFaults (body : EditorM String) (handler : Session → String × Session)
    (s : Session) : Prop :=
  (∀ r s₁, body s = (.ok r, s₁) → handler s = (r, s₁)) ∧
  (∀ e s₁, body s = (.error e, s₁) →
    (handler s).2 = s₁ ∧ containsStr (handler s).1 "Error" = true)

lemma guarded_catches (body : EditorM String) (fmt : String → String) (s : Session)
    (hfmt : ∀ e, containsStr (fmt e) "Error" = true) :
    catchesFaults body (fun s' => guarded body fmt s') s := by
  constructor
  · intro r s₁ h
    show guarded body fmt s = (r, s₁)
    unfold guarded
    rw [h]
  · intro e s₁ h
    refine ⟨?_, ?_⟩
    · show (guarded body fmt s).2 = s₁
      unfold guarded
      rw [h]
    · show containsStr (guarded body fmt s).1 "Error" = true
      unfold guarded
      rw [h]
      exact hfmt e

lemma containsStr_append_left (a b : String)
    (h : containsStr a "Error" = true) :
    containsStr (a ++ b) "Error" = true := by
  unfold containsStr at h ⊢
  exact occursInStr_append_left a b h

/-- Claim C5: every command Handler, for every session behavior — including
a session whose calls raise faults — returns exactly one Result at the
state reached, never propagating the fault, and a fault surfaced by a
session call yields a Result containing the marker substring "Error". -/
theorem handlers_never_propagate_faults (api : NvimApi) (a b ln : Int)
    (lineOpt : Option Int) (text pat old new : String) (s : Session) :
    catchesFaults (visual_lines_body api a b) (visual_lines_command api a b) s ∧
    catchesFaults (insert_text_body api text lineOpt)
      (insert_text_command api text lineOpt) s ∧
    catchesFaults (delete_body api) (delete_command api) s ∧
    catchesFaults (delete_lines_body api a b) (delete_lines_command api a b) s ∧
    catchesFaults (goto_line_body api ln) (goto_line_command api ln) s ∧
    catchesFaults (find_text_body api pat) (find_text_command api pat) s ∧
    catchesFaults (replace_text_body api old new)
      (replace_text_command api old new) s := by
  refine ⟨?_, ?_, ?_, ?_, ?_, ?_, ?_⟩ <;>
  · refine guarded_catches _ _ s (fun e => ?_)
    repeat apply containsStr_append_left
    decide

/-- Witness for C5: against the concrete session, `GOTO LINE 99` on a
two-line buffer makes the cursor call fault; the handler converts the fault
into an error-marked Result at the unchanged state. -/
theorem handlers_never_propagate_faults_witness :
    (goto_line_command nvimApi 99 (mkSession ["a", "b"])).2 = mkSession ["a", "b"] ∧
    containsStr (goto_line_command nvimApi 99 (mkSession ["a", "b"])).1 "Error" = true :=
  ((handlers_never_propagate_faults nvimApi 1 1 99 none "" "" "" ""
      (mkSession ["a", "b"])).2.2.2.2.1).2
    "Cursor position outside buffer" (mkSession ["a", "b"]) (by rfl)

/-- Claim C6 counterexample: the claim asserts the not-found Result never
contains the error marker, but for the pattern "Error" (reported unmatched
by the session search) the Result "Pattern 'Error' not found" does contain
the marker substring. -/
theorem find_notfound_marker_cex :
    searchFwd (mkSession ["foo", "bar"]) "Error" = 0 ∧
    find_text_command nvimApi "Error" (mkSession ["foo", "bar"]) =
      ("Pattern 'Error' not found", mkSession ["foo", "bar"]) ∧
    containsStr "Pattern 'Error' not found" "Error" = true := by
  refine ⟨by decide, by rfl, by decide⟩

/-- Claim C6 as amended: when the session search reports no match, the FIND
handler returns exactly "Pattern '<p>' not found" at the unchanged state,
and that Result contains the error marker only when the pattern itself
does; for the scenario pattern "baz" the Result is marker-free. -/
theorem find_notfound_exact_result (pat : String) (s : Session)
    (h : searchFwd s pat ≤ 0) :
    find_text_command nvimApi pat s = ("Pattern '" ++ pat ++ "' not found", s) ∧
    (containsStr ("Pattern '" ++ pat ++ "' not found") "Error" = true →
      containsStr pat "Error" = true) ∧
    execute nvimApi "FIND \"baz\"" (mkSession ["foo", "bar"]) =
      ("Pattern 'baz' not found", mkSession ["foo", "bar"]) ∧
    containsStr "Pattern 'baz' not found" "Error" = false := by
  refine ⟨find_notfound_spec pat s h, ?_, by rfl, by decide⟩
  intro hmark
  unfold containsStr at hmark ⊢
  rw [String.data_append, String.data_append, List.append_assoc] at hmark
  have hE : ("Error" : String).data = 'E' :: ("rror" : String).data := by decide
  rw [hE] at hmark ⊢
  have hstep := @occursIn_head_notin 'E' ("rror" : String).data
    ("Pattern '" : String).data (pat.data ++ ("' not found" : String).data)
    (by decide) hmark
  rcases occursIn_append_cases pat.data ("' not found" : String).data hstep
    with h' | h' | h'
  · exact h'
  · exact absurd h' (by decide)
  · obtain ⟨m, hm0, hm5, hpref⟩ := h'
    have hlen : ('E' :: ("rror" : String).data).length = 5 := by decide
    rw [hlen] at hm5
    interval_cases m
    · exact absurd hpref (by decide)
    · exact absurd hpref (by decide)
    · exact absurd hpref (by decide)
    · exact absurd hpref (by decide)

/-- Witness for C6 as amended, at the scenario inputs. -/
theorem find_notfound_exact_result_witness :
    find_text_command nvimApi "baz" (mkSession ["foo", "bar"]) =
      ("Pattern 'baz' not found", mkSession ["foo", "bar"]) ∧
    (containsStr ("Pattern '" ++ "baz" ++ "' not found") "Error" = true →
      containsStr "baz" "Error" = true) ∧
    execute nvimApi "FIND \"baz\"" (mkSession ["foo", "bar"]) =
      ("Pattern 'baz' not found", mkSession ["foo", "bar"]) ∧
    containsStr "Pattern 'baz' not found" "Error" = false :=
  find_notfound_exact_result "baz" (mkSession ["foo", "bar"]) (by decide)

/-- Claim C4: for every input the grammar rejects, `execute` returns a
Result containing both the error marker and the offending input and leaves
the session untouched, `validate_command` returns false without raising,
and `get_parse_tree` surfaces the parse fault. -/
theorem parse_failure_uniform_handling (input e : String) (s : Session)
    (h : parse input = .error e) :
    execute nvimApi input s = ("Error executing '" ++ input ++ "': " ++ e, s) ∧
    containsStr (execute nvimApi input s).1 "Error" = true ∧
    containsStr (execute nvimApi input s).1 input = true ∧
    validate_command input = false ∧
    get_parse_tree input = .error e := by
  have hex : execute nvimApi input s =
      ("Error executing '" ++ input ++ "': " ++ e, s) := by
    unfold execute
    rw [h]
  refine ⟨hex, ?_, ?_, ?_, ?_⟩
  · rw [hex]
    repeat apply containsStr_append_left
    decide
  · rw [hex]
    unfold containsStr
    rw [String.data_append, String.data_append, String.data_append]
    apply occursIn_append_left
    apply occursIn_append_left
    apply occursIn_append_right
    exact occursIn_of_pref (isPrefLC_refl _)
  · unfold validate_command
    rw [h]
  · unfold get_parse_tree
    exact h

/-- Witness for C4 at the rejected input "BOGUS". -/
theorem parse_failure_uniform_handling_witness :
    execute nvimApi "BOGUS" (mkSession ["a"]) =
      ("Error executing 'BOGUS': No terminal matches 'BOGUS'", mkSession ["a"]) ∧
    containsStr (execute nvimApi "BOGUS" (mkSession ["a"])).1 "Error" = true ∧
    containsStr (execute nvimApi "BOGUS" (mkSession ["a"])).1 "BOGUS" = true ∧
    validate_command "BOGUS" = false ∧
    get_parse_tree "BOGUS" = .error "No terminal matches 'BOGUS'" :=
  parse_failure_uniform_handling "BOGUS" "No terminal matches 'BOGUS'"
    (mkSession ["a"]) (by rfl)

/-- Claim C7: `execute_batch` returns exactly one Result per input, in input
order, executing each input to completion against the threaded session
state; an error Result from one input does not stop later inputs — in the
scenario, `GOTO LINE 99` faults yet the following `INSERT "x"` still runs
and mutates the buffer. -/
theorem batch_isolates_failures :
    (∀ (cmds : List String) (s : Session),
      (execute_batch nvimApi cmds s).1.length = cmds.length) ∧
    (∀ (c : String) (cs : List String) (s : Session),
      execute_batch nvimApi (c :: cs) s =
        ((execute nvimApi c s).1 ::
           (execute_batch nvimApi cs (execute nvimApi c s).2).1,
         (execute_batch nvimApi cs (execute nvimApi c s).2).2)) ∧
    execute_batch nvimApi ["GOTO LINE 99", "INSERT \"x\""] (mkSession ["a", "b"]) =
      (["Error going to line 99: Cursor position outside buffer",
        "Inserted text at current position"],
       mkSession ["a", "x", "b"]) ∧
    containsStr "Error going to line 99: Cursor position outside buffer" "Error" = true ∧
    containsStr "Inserted text at current position" "Error" = false := by
  refine ⟨execute_batch_length nvimApi, ?_, by rfl, by decide, by decide⟩
  intro c cs s
  rfl

lemma execute_ok_cons (api : NvimApi) (input : String) (cmds : List Cmd)
    (s : Session) (r : String) (rs : List String) (s' : Session)
    (h : parse input = .ok cmds)
    (ht : transformCmds api cmds s = (r :: rs, s')) :
    execute api input s = (r, s') := by
  unfold execute
  rw [h]
  simp only [ht]

/-- Claim C10: when an input parses into more than one command, `execute`
still runs every command's handler in source order (the final session state
is the one after all of them), but returns only the first command's Result,
discarding the rest. -/
theorem multi_command_runs_all_returns_first (input : String) (cmds : List Cmd)
    (s : Session) (h : parse input = .ok cmds) (h2 : 1 < cmds.length) :
    (transformCmds nvimApi cmds s).1.length = cmds.length ∧
    ∃ r rs, (transformCmds nvimApi cmds s).1 = r :: rs ∧
      execute nvimApi input s = (r, (transformCmds nvimApi cmds s).2) := by
  refine ⟨transformCmds_length nvimApi cmds s, ?_⟩
  have hlen := transformCmds_length nvimApi cmds s
  cases hres : (transformCmds nvimApi cmds s).1 with
  | nil => rw [hres] at hlen; simp at hlen; omega
  | cons r rs =>
    refine ⟨r, rs, rfl, ?_⟩
    have ht : transformCmds nvimApi cmds s =
        (r :: rs, (transformCmds nvimApi cmds s).2) := by
      rw [← hres]
    exact execute_ok_cons nvimApi input cmds s r rs _ h ht

/-- Witness for C10 on a two-command input: the first command's Result is
returned, the second command's Result is discarded, and both effects are
applied (line 1 deleted after the cursor moved to line 2). -/
theorem multi_command_runs_all_returns_first_witness :
    execute nvimApi "GOTO LINE 2 DELETE LINES 1 TO 1" (mkSession ["a", "b", "c"]) =
      ("Moved to line 2",
       { mkSession ["a", "b", "c"] with buffer := ["b", "c"], cursorLine := 2 }) ∧
    (transformCmds nvimApi [Cmd.gotoLine 2, Cmd.deleteLines 1 1]
        (mkSession ["a", "b", "c"])).1 =
      ["Moved to line 2", "Deleted lines 1 to 1"] := by
  obtain ⟨hlen, r, rs, hcons, hexec⟩ :=
    multi_command_runs_all_returns_first "GOTO LINE 2 DELETE LINES 1 TO 1"
      [Cmd.gotoLine 2, Cmd.deleteLines 1 1] (mkSession ["a", "b", "c"])
      (by rfl) (by decide)
  have hval : (transformCmds nvimApi [Cmd.gotoLine 2, Cmd.deleteLines 1 1]
      (mkSession ["a", "b", "c"])).1 =
      ["Moved to line 2", "Deleted lines 1 to 1"] := by rfl
  refine ⟨?_, hval⟩
  rw [hexec]
  rw [hval] at hcons
  injection hcons with h1 h2
  rw [← h1]
  rfl

/-- Claim C2 counterexample: on the empty input the parse succeeds with zero
commands and the transform yields zero Results, but `execute` returns
`"[]"` — the python stringification of the empty result list — and not the
stringified parse tree. -/
theorem execute_zero_results_cex :
    parse "" = .ok [] ∧
    transformCmds nvimApi [] (mkSession ["a"]) = ([], mkSession ["a"]) ∧
    execute nvimApi "" (mkSession ["a"]) = ("[]", mkSession ["a"]) ∧
    pyStrList [] = "[]" ∧
    treeToString [] = "Tree('start', [])" ∧
    ("[]" : String) ≠ treeToString [] :=
  ⟨rfl, rfl, rfl, rfl, rfl, by decide⟩

/-- Claim C2 as amended: when parsing succeeds but the transform produces
zero Results, `execute` returns the python stringification of the (empty)
transform result list — the string "[]" — rather than the stringified
parse tree, and leaves the session unchanged. -/
theorem execute_zero_results_fallback (input : String) (s : Session)
    (h : parse input = .ok []) :
    execute nvimApi input s = (pyStrList [], s) ∧ pyStrList [] = "[]" := by
  refine ⟨?_, by rfl⟩
  unfold execute
  rw [h]
  rfl

/-- Witness for amended C2 at the empty input. -/
theorem execute_zero_results_fallback_witness :
    execute nvimApi "" (mkSession ["a"]) = (pyStrList [], mkSession ["a"]) ∧
    pyStrList [] = "[]" :=
  execute_zero_results_fallback "" (mkSession ["a"]) (by rfl)

/-! ### Claim C8: string-literal handling in the transformer -/

lemma stripBothLC_wrap (p : Char → Bool) (q : Char) (hq : p q = true)
    (c : List Char) :
    stripBothLC p (q :: (c ++ [q])) = stripBothLC p c := by
  unfold stripBothLC
  rw [List.dropWhile_cons, if_pos hq, List.dropWhile_append]
  by_cases hc : (List.dropWhile p c).isEmpty
  · rw [if_pos hc]
    have h1 : List.dropWhile p [q] = ([] : List Char) := by
      simp [List.dropWhile_cons, hq]
    rw [h1]
    rw [List.isEmpty_iff.mp hc]
  · rw [if_neg hc]
    rw [List.reverse_append]
    show (List.dropWhile p (q :: (List.dropWhile p c).reverse)).reverse = _
    rw [List.dropWhile_cons, if_pos hq]

/-- Claim C8 counterexample: the single-line double-quoted literal with
contents `x'` is transformed to "x" — the trailing single quote of the
contents is stripped along with the delimiters — so the text passed to the
INSERT handler is not the contents with only the surrounding quote
characters removed. -/
theorem single_line_literal_strip_cex :
    transformInsertToken (String.mk [dqChar, 'x', sqChar, dqChar]) = "x" ∧
    String.mk [dqChar, 'x', sqChar, dqChar] =
      String.mk (dqChar :: (['x', sqChar] ++ [dqChar])) ∧
    String.mk ['x', sqChar] ≠ ("x" : String) :=
  ⟨by decide, by rfl, by decide⟩

/-- Claim C8 as amended: a triple-quoted token is transformed to exactly its
contents with embedded newlines preserved (and the multi-line scenario
inserts two lines); every single-line token — delimited by a double or a
single quote, with contents free of the delimiter as the lexical rule
requires — is transformed to its contents with any leading and trailing
quote characters (of either kind) additionally stripped; when the contents
neither start nor end with a quote character that stripping coincides with
removing only the surrounding delimiters. -/
theorem string_literal_delimiter_handling :
    (∀ content : String,
      transformInsertToken (String.mk ([dqChar, dqChar, dqChar] ++ content.data ++
        [dqChar, dqChar, dqChar])) = content) ∧
    execute nvimApi "INSERT \"\"\"line1\nline2\"\"\" AT LINE 1" (mkSession ["a"]) =
      ("Inserted 2 lines starting at line 1", mkSession ["line1", "line2", "a"]) ∧
    (∀ (q : Char), q = dqChar ∨ q = sqChar →
      ∀ content : List Char, content.contains q = false →
        transformInsertToken (String.mk (q :: (content ++ [q]))) =
          String.mk (stripBothLC isQuoteCh content)) ∧
    (∀ content : List Char,
      (∀ a, content.head? = some a → isQuoteCh a = false) →
      (∀ a, content.getLast? = some a → isQuoteCh a = false) →
      stripBothLC isQuoteCh content = content) := by
  refine ⟨?_, by rfl, ?_, ?_⟩
  · intro content
    unfold transformInsertToken
    rw [if_pos ?side]
    case side =>
      constructor
      · show isPrefLC [dqChar, dqChar, dqChar]
          (([dqChar, dqChar, dqChar] ++ content.data) ++ [dqChar, dqChar, dqChar]) = true
        rw [List.append_assoc]
        exact isPrefLC_self_append _ _
      · show isPrefLC ([dqChar, dqChar, dqChar] : List Char).reverse
          ((([dqChar, dqChar, dqChar] ++ content.data) ++
            [dqChar, dqChar, dqChar]).reverse) = true
        rw [List.reverse_append, List.reverse_append]
        exact isPrefLC_self_append _ _
    · unfold slice3m3
      have hdrop : ((([dqChar, dqChar, dqChar] ++ content.data) ++
          [dqChar, dqChar, dqChar]).drop 3) = content.data ++ [dqChar, dqChar, dqChar] := by
        rw [List.append_assoc]
        rfl
      have hlen : ((([dqChar, dqChar, dqChar] ++ content.data) ++
          [dqChar, dqChar, dqChar]).length) - 6 = content.data.length := by
        simp [List.length_append]
      show String.mk (((([dqChar, dqChar, dqChar] ++ content.data) ++
          [dqChar, dqChar, dqChar]).drop 3).take
          (((([dqChar, dqChar, dqChar] ++ content.data) ++
            [dqChar, dqChar, dqChar]).length) - 6)) = content
      rw [hdrop, hlen, List.take_left]
  · intro q hq content hc
    have hqt : isQuoteCh q = true := by
      rcases hq with h | h <;> subst h <;> decide
    unfold transformInsertToken
    rw [if_neg ?notTriple]
    case notTriple =>
      intro hand
      have hs := hand.1
      unfold pyStartsWith at hs
      rcases hq with h | h
      · subst h
        cases content with
        | nil => exact absurd hs (by decide)
        | cons a as =>
          simp only [List.cons_append, isPrefLC, Bool.and_eq_true, beq_iff_eq] at hs
          rw [List.contains_cons] at hc
          simp only [Bool.or_eq_false_iff, beq_eq_false_iff_ne] at hc
          exact hc.1 hs.2.1
      · subst h
        simp only [isPrefLC, Bool.and_eq_true, beq_iff_eq] at hs
        exact absurd hs.1 (by decide)
    · unfold stripQuotesPy
      show String.mk (stripBothLC isQuoteCh (q :: (content ++ [q]))) = _
      rw [stripBothLC_wrap isQuoteCh q hqt content]
  · intro content hhead hlast
    unfold stripBothLC
    have h1 : List.dropWhile isQuoteCh content = content := by
      cases content with
      | nil => rfl
      | cons a as =>
        rw [List.dropWhile_cons, if_neg (by simp [hhead a rfl])]
    rw [h1]
    cases hrev : content.reverse with
    | nil =>
      have hnil : content = [] := by
        simpa using congrArg List.reverse hrev
      subst hnil
      rfl
    | cons b bs =>
      have hb : content.getLast? = some b := by
        rw [← List.head?_reverse, hrev]
        rfl
      rw [List.dropWhile_cons, if_neg (by simp [hlast b hb])]
      rw [← hrev, List.reverse_reverse]

/-- Witness for amended C8: the double-quoted literal with contents `x'`
(the trailing quote of the contents is additionally stripped), the
single-quoted literal with contents `x`, and the delimiter-only removal for
quote-free contents. -/
theorem string_literal_delimiter_handling_witness :
    transformInsertToken (String.mk (dqChar :: (['x', sqChar] ++ [dqChar]))) =
      String.mk (stripBothLC isQuoteCh ['x', sqChar]) ∧
    transformInsertToken (String.mk (sqChar :: (['x'] ++ [sqChar]))) =
      String.mk (stripBothLC isQuoteCh ['x']) ∧
    stripBothLC isQuoteCh ['x'] = ['x'] :=
  ⟨(string_literal_delimiter_handling).2.2.1 dqChar (Or.inl rfl) ['x', sqChar] (by decide),
   (string_literal_delimiter_handling).2.2.1 sqChar (Or.inr rfl) ['x'] (by decide),
   (string_literal_delimiter_handling).2.2.2 ['x'] (by decide) (by decide)⟩
